import Mathlib

/-!
Verification of the transaction data pipeline of a personal expense-tracking
web application (CSV tokenizer, record normalizer, import pipeline, transaction
store mutations and the month/category/day aggregation queries).

The JavaScript source is shallowly embedded below.  JavaScript strings become
Lean Strings; a JavaScript value that may be a string or undefined becomes
Option String; a JavaScript number arising from parseInt or Number becomes
Option Int, with none standing for NaN (and for undefined, which is only
conflated with NaN where the source never distinguishes them); code that can
throw returns Except.  Amounts are modelled as exact integers: every number the
pipeline manipulates is an integer-valued float at personal-finance scale, far
below the range where IEEE-754 doubles lose integer precision.
-/

/-- The double-quote character. -/
def quoteChar : Char := Char.ofNat 34

/-- The single-quote (apostrophe) character. -/
def aposChar : Char := Char.ofNat 39

/-- The minus-sign character. -/
def minusChar : Char := Char.ofNat 45

/-- The dash separating the components of a YYYY-MM-DD date. -/
def dashChar : Char := Char.ofNat 45

/-- ECMAScript WhiteSpace and LineTerminator code points (the set skipped by
String.prototype.trim and by parseInt): space, tab, LF, VT, FF, CR, the
LineTerminators LS and PS, the BOM U+FEFF, and every Unicode
space-separator (Zs): space, NBSP, Ogham space mark U+1680, the spaces
U+2000..U+200A, U+202F, U+205F and the ideographic space U+3000. -/
def jsWhitespace (c : Char) : Bool :=
  c.toNat == 32 || c.toNat == 9 || c.toNat == 10 || c.toNat == 11 ||
  c.toNat == 12 || c.toNat == 13 || c.toNat == 160 || c.toNat == 5760 ||
  (8192 ≤ c.toNat && c.toNat ≤ 8202) || c.toNat == 8232 || c.toNat == 8233 ||
  c.toNat == 8239 || c.toNat == 8287 || c.toNat == 12288 || c.toNat == 65279

/-- JavaScript String.prototype.trim: drop ECMAScript whitespace from both
ends. -/
def jsTrim (s : String) : String :=
  String.mk (((s.data.dropWhile jsWhitespace).reverse.dropWhile jsWhitespace).reverse)

/-- Source app.js line 21: text.replace of a leading U+FEFF byte-order mark
(the regex is anchored and non-global, so at most one leading BOM character is
removed). -/
def stripBOM (s : String) : String :=
  match s.data with
  | c :: rest => if c.toNat == 65279 then String.mk rest else s
  | [] => s

/-- Source app.js line 23: content.split on the regex matching an optional CR
followed by LF.  A CRLF pair or a lone LF ends a line; a CR not followed by LF
is ordinary content.  The accumulator holds the current line reversed. -/
def splitLinesAux : List Char → List Char → List String
  | [], acc => [String.mk acc.reverse]
  | c :: rest, acc =>
    if c.toNat == 10 then
      (match acc with
       | c2 :: acc2 => if c2.toNat == 13 then String.mk acc2.reverse else String.mk acc.reverse
       | [] => String.mk []) :: splitLinesAux rest []
    else splitLinesAux rest (c :: acc)

/-- Split raw text into lines the way app.js line 23 does. -/
def splitLines (s : String) : List String :=
  splitLinesAux s.data []

/-- Source app.js lines 70-88, function splitCSVLine: one pass over the line;
a double quote toggles the in-quote flag, a comma outside quotes ends the
current field, any other character (including a comma inside quotes) is
appended to the current field.  Quote characters are never emitted. -/
def splitCSVAux : List Char → List Char → Bool → List String
  | [], cur, _ => [String.mk cur]
  | c :: rest, cur, inQuote =>
    if c == quoteChar then splitCSVAux rest cur (!inQuote)
    else if c == Char.ofNat 44 && !inQuote then String.mk cur :: splitCSVAux rest [] inQuote
    else splitCSVAux rest (cur ++ [c]) inQuote

/-- The CSV tokenizer, app.js lines 70-88. -/
def splitCSVLine (line : String) : List String :=
  splitCSVAux line.data [] false

/-- The gate of app.js line 33: the first field matches the regex of exactly
four ASCII digits. -/
def fourDigits (s : String) : Bool :=
  s.data.length == 4 && s.data.all Char.isDigit

/-- Exactly two ASCII digits. -/
def twoDigits (s : String) : Bool :=
  s.data.length == 2 && s.data.all Char.isDigit

/-- A (possibly empty) ASCII digit string of length at most two: the shape of
a month or day field that survives padStart and yields a well-formed date. -/
def shortDigits (s : String) : Bool :=
  s.data.length ≤ 2 && s.data.all Char.isDigit

/-- JavaScript String.prototype.padStart with target length 2 and pad
character zero, as used on the month and day fields (app.js lines 39-40). -/
def padStart2 (s : String) : String :=
  if 2 ≤ s.data.length then s
  else String.mk (List.replicate (2 - s.data.length) (Char.ofNat 48) ++ s.data)

/-- The integer value of a decimal digit character. -/
def digitVal (c : Char) : Int := (c.toNat : Int) - 48

/-- The integer denoted by a list of decimal digit characters. -/
def digitsVal (ds : List Char) : Int :=
  ds.foldl (fun a c => a * 10 + digitVal c) 0

/-- ASCII hexadecimal digit. -/
def isHexDigitChar (c : Char) : Bool :=
  c.isDigit || (97 ≤ c.toNat && c.toNat ≤ 102) || (65 ≤ c.toNat && c.toNat ≤ 70)

/-- The integer value of a hexadecimal digit character. -/
def hexDigitVal (c : Char) : Int :=
  if c.isDigit then (c.toNat : Int) - 48
  else if 97 ≤ c.toNat then (c.toNat : Int) - 87
  else (c.toNat : Int) - 55

/-- The integer denoted by a list of hexadecimal digit characters. -/
def hexVal (ds : List Char) : Int :=
  ds.foldl (fun a c => a * 16 + hexDigitVal c) 0

/-- Does the digits part of a parseInt argument select the hexadecimal
radix: a leading 0x or 0X. -/
def parseIntHexForm : List Char → Bool
  | c0 :: c1 :: _ => c0.toNat == 48 && (c1.toNat == 120 || c1.toNat == 88)
  | _ => false

/-- The digits part of ECMAScript parseInt after sign handling: a 0x or 0X
prefix switches to hexadecimal, otherwise the maximal leading run of decimal
digits is taken; no digits at all gives NaN (none). -/
def parseIntDigits (cs : List Char) : Option Int :=
  if parseIntHexForm cs then
    if ((cs.drop 2).takeWhile isHexDigitChar).isEmpty then none
    else some (hexVal ((cs.drop 2).takeWhile isHexDigitChar))
  else
    if (cs.takeWhile Char.isDigit).isEmpty then none
    else some (digitsVal (cs.takeWhile Char.isDigit))

/-- ECMAScript parseInt after the whitespace skip: an optional single sign
followed by the digits part. -/
def parseIntCore : List Char → Option Int
  | [] => none
  | c :: rest =>
    if c == minusChar then (parseIntDigits rest).map (fun n => -n)
    else if c.toNat == 43 then parseIntDigits rest
    else parseIntDigits (c :: rest)

/-- ECMAScript parseInt with no radix argument, returning none for NaN:
skip leading whitespace, then an optional sign and the leading digit run. -/
def parseIntJS (s : String) : Option Int :=
  parseIntCore (s.data.dropWhile jsWhitespace)

/-- ECMAScript ToNumber (the Number conversion applied by app.js line 142 to
the date components of a manual entry), modelled on the optionally signed
decimal integer fragment: the trimmed empty string is 0 and a trimmed
optionally signed digit string denotes that integer.  Inputs outside this
fragment (fractions, exponents, hex forms, Infinity) denote a non-integral
number or NaN and are conflated with none; the manual-entry claims only ever
apply this conversion to plain digit strings. -/
def jsNumberCore : List Char → Option Int
  | [] => some 0
  | c :: rest =>
    if c == minusChar then
      if !rest.isEmpty && rest.all Char.isDigit then some (-(digitsVal rest)) else none
    else if c.toNat == 43 then
      if !rest.isEmpty && rest.all Char.isDigit then some (digitsVal rest) else none
    else if (c :: rest).all Char.isDigit then some (digitsVal (c :: rest))
    else none

/-- Continuation of the doc comment above: the trim step of ToNumber. -/
def jsNumberInt (s : String) : Option Int :=
  jsNumberCore (((s.data.dropWhile jsWhitespace).reverse.dropWhile jsWhitespace).reverse)

/-- The quote-, apostrophe- and comma-stripping of app.js line 66. -/
def stripQC (s : String) : String :=
  String.mk (s.data.filter (fun c => !(c == quoteChar || c == aposChar || c == Char.ofNat 44)))

/-- The cleaned amount field: quotes, apostrophes and commas removed, then
trimmed (app.js line 66). -/
def cleanAmount (s : String) : String :=
  jsTrim (stripQC s)

/-- Source app.js lines 64-68, function parseAmount.  The argument is an
Option because the source may pass an undefined field (a missing column),
which like the empty string is falsy and yields 0.  The JavaScript
or-default turns NaN and 0 (and negative zero) into 0, so the none and zero
results of parseInt both collapse to 0. -/
def orZero : Option Int → Int
  | none => 0
  | some n => if n == 0 then 0 else n

/-- Continuation of the doc comment above: parseAmount proper. -/
def parseAmount : Option String → Int
  | none => 0
  | some s => if s == "" then 0 else orZero (parseIntJS (cleanAmount s))

/-- The canonical Transaction record (spec section 3; built at app.js lines
42-56 and 144-158).  Free-text fields are Option String because the CSV
normalizer stores undefined when a column is missing; year, month and day are
Option Int with none for NaN. -/
structure Transaction where
  id : String
  date : String
  year : Option Int
  month : Option Int
  day : Option Int
  type : Option String
  category_med : Option String
  category_sml : Option String
  detail : Option String
  amount : Int
  value_type : Option String
  payee : Option String
  method : Option String
deriving DecidableEq

/-- The record normalizer, app.js lines 37-56: map the fixed-position field
list of one data line to a Transaction.  The source draws a fresh id from
crypto.randomUUID per record; the generator is abstracted as a function from
the record's emission index.  Fields 1 and 2 are only read here after the
caller has checked that they exist (otherwise the source throws first, see
mkItem). -/
def normalizeCols (genId : Nat → String) (n : Nat) (cols : List String) : Transaction :=
  let year := cols.getD 0 ""
  let month := padStart2 (cols.getD 1 "")
  let day := padStart2 (cols.getD 2 "")
  { id := genId n
    date := year ++ "-" ++ month ++ "-" ++ day
    year := parseIntJS year
    month := parseIntJS month
    day := parseIntJS day
    type := cols.get? 3
    category_med := cols.get? 4
    category_sml := cols.get? 5
    detail := cols.get? 6
    amount := parseAmount (cols.get? 7)
    value_type := cols.get? 8
    payee := cols.get? 9
    method := cols.get? 10 }

/-- One data line of the import loop after the gate (app.js lines 38-58):
reading padStart on the month or day field of a line that has no such field
is a TypeError on undefined, which aborts parseCSVText; otherwise the line
normalizes. -/
def mkItem (genId : Nat → String) (n : Nat) (cols : List String) : Except String Transaction :=
  match cols.get? 1, cols.get? 2 with
  | some _, some _ => Except.ok (normalizeCols genId n cols)
  | _, _ => Except.error ("TypeError")

/-- The per-line loop of app.js lines 26-59 over the lines after the header,
threading the emission index used for id generation.  A thrown TypeError
discards every record already built, as a JavaScript exception does. -/
def parseLines (genId : Nat → String) : List String → Nat → Except String (List Transaction)
  | [], _ => Except.ok []
  | l :: rest, n =>
    let line := jsTrim l
    if line == "" then parseLines genId rest n
    else
      let cols := splitCSVLine line
      if fourDigits (cols.getD 0 "") then
        match mkItem genId n cols with
        | Except.error e => Except.error e
        | Except.ok item =>
          match parseLines genId rest (n + 1) with
          | Except.error e => Except.error e
          | Except.ok out => Except.ok (item :: out)
      else parseLines genId rest n

/-- Source app.js lines 19-62, function parseCSVText: strip the BOM, split
into lines, skip the header line unconditionally, and run the per-line loop.
The error case is the TypeError thrown at line 39 or 40 when a gated line has
no second or third field. -/
def parseCSVText (genId : Nat → String) (text : String) : Except String (List Transaction) :=
  parseLines genId ((splitLines (stripBOM text)).drop 1) 0

/-- The lines of the input the import loop iterates over (everything after
the header line). -/
def csvLines (text : String) : List String :=
  (splitLines (stripBOM text)).drop 1

/-- A trimmed line that the import loop accepts: non-empty, with a first
tokenized field of exactly four digits (app.js lines 28 and 33). -/
def isDataLine (l : String) : Bool :=
  !(l == "") && fourDigits ((splitCSVLine l).getD 0 "")

/-- The trimmed data lines of an input text, in input order. -/
def validLines (text : String) : List String :=
  ((csvLines text).map jsTrim).filter isDataLine

/-- Split a string on a single separator character, as JavaScript
String.prototype.split with a one-character separator (used on the manual
entry date at app.js line 142). -/
def splitOnCharAux (sep : Char) : List Char → List Char → List String
  | [], acc => [String.mk acc]
  | c :: rest, acc =>
    if c == sep then String.mk acc :: splitOnCharAux sep rest []
    else splitOnCharAux sep rest (acc ++ [c])

/-- JavaScript split on one separator character. -/
def splitOnChar (sep : Char) (s : String) : List String :=
  splitOnCharAux sep s.data []

/-- A syntactically valid YYYY-MM-DD date string: splitting on the dash gives
exactly a four-digit, a two-digit and a two-digit component.  Digit strings
contain no dash, so this is the usual digit-pattern reading of the format. -/
def isYYYYMMDD (s : String) : Bool :=
  match splitOnChar dashChar s with
  | [y, m, d] => fourDigits y && twoDigits m && twoDigits d
  | _ => false

/-- The redundant-decomposition invariant of spec section 3: the date string
is well-formed and the three integer fields equal the decimal values of its
three components. -/
def dateConsistentB (t : Transaction) : Bool :=
  isYYYYMMDD t.date &&
  match splitOnChar dashChar t.date with
  | [y, m, d] => t.year == parseIntJS y && t.month == parseIntJS m && t.day == parseIntJS d
  | _ => false

/-- Source app.js lines 128-173, function handleEntrySubmit, reduced to its
effect on the transaction list: the form field values and the fresh id are
parameters; a missing date or an unparsable amount returns the list
unchanged, otherwise the new record is prepended (transactions.unshift). -/
def handleEntrySubmit (newId dateVal typeVal amountStr categoryMed detailVal methodVal valueTypeVal : String)
    (ts : List Transaction) : List Transaction :=
  match parseIntJS amountStr with
  | none => ts
  | some a =>
    if dateVal == "" then ts
    else
      let parts := (splitOnChar dashChar dateVal).map jsNumberInt
      { id := newId
        date := dateVal
        year := parts.getD 0 none
        month := parts.getD 1 none
        day := parts.getD 2 none
        type := some typeVal
        category_med := some categoryMed
        category_sml := some ("")
        detail := some detailVal
        amount := a
        value_type := some valueTypeVal
        payee := some ("")
        method := some methodVal } :: ts

/-- JavaScript String.prototype.startsWith: the argument is a character
prefix of the receiver. -/
def jsStartsWith (s pre : String) : Bool :=
  pre.data.isPrefixOf s.data

/-- The month-scoped subset of app.js line 356: records whose date string
starts with the YYYY-MM picker value. -/
def monthData (ts : List Transaction) (m : String) : List Transaction :=
  ts.filter (fun t => jsStartsWith t.date m)

/-- Sum of amounts by the reduce of app.js lines 359-365 (initial value 0). -/
def sumAmounts (l : List Transaction) : Int :=
  l.foldl (fun s t => s + t.amount) 0

/-- The income total of app.js lines 359-361: sum the amounts of the
month-scoped records whose type is the income kind. -/
def monthIncome (ts : List Transaction) (m : String) : Int :=
  sumAmounts ((monthData ts m).filter (fun t => t.type == some ("収入")))

/-- The expense total of app.js lines 363-365. -/
def monthExpense (ts : List Transaction) (m : String) : Int :=
  sumAmounts ((monthData ts m).filter (fun t => t.type == some ("支出")))

/-- The balance of app.js line 367: income minus expense. -/
def monthBalance (ts : List Transaction) (m : String) : Int :=
  monthIncome ts m - monthExpense ts m

/-- A value stored in the category-totals object: either a number, or a
string produced by adding a number to an inherited truthy object or
function.  The exact text of such a string depends on the host's
Function.prototype.toString output and never matters here: every later read
of it only needs that it is truthy and non-numeric, which the addition
guarantees (the appended decimal digits make it non-empty). -/
inductive ObjVal where
  | num : Int → ObjVal
  | junk : ObjVal
deriving DecidableEq

/-- The result of reading a property of the totals object: an own numeric
property, an own non-numeric string, a truthy object or function inherited
from Object.prototype, or undefined. -/
inductive ObjRead where
  | undef : ObjRead
  | ownNum : Int → ObjRead
  | ownJunk : ObjRead
  | inherited : ObjRead
deriving DecidableEq

/-- The own property names of Object.prototype (ECMAScript section 20.1.3
plus the Annex B legacy accessors, which every browser implements): a read
of one of these keys on an otherwise empty object literal consults the
prototype chain and yields a truthy function or object instead of
undefined. -/
def objectProtoKeys : List String :=
  ["__proto__", "constructor", "hasOwnProperty", "isPrototypeOf",
   "propertyIsEnumerable", "toLocaleString", "toString", "valueOf",
   "__defineGetter__", "__defineSetter__", "__lookupGetter__", "__lookupSetter__"]

/-- Read of a JavaScript object property (the totals[k] of app.js line
483): an own property wins; otherwise the prototype chain supplies
Object.prototype's members; otherwise the read is undefined. -/
def jsObjRead (tot : List (String × ObjVal)) (k : String) : ObjRead :=
  match tot.find? (fun p => p.1 == k) with
  | some p =>
    match p.2 with
    | ObjVal.num n => ObjRead.ownNum n
    | ObjVal.junk => ObjRead.ownJunk
  | none => if k ∈ objectProtoKeys then ObjRead.inherited else ObjRead.undef

/-- Update the first occurrence of an own key, or append a new own property
at the end, preserving insertion order. -/
def objSetV : List (String × ObjVal) → String → ObjVal → List (String × ObjVal)
  | [], k, v => [(k, v)]
  | p :: rest, k, v => if p.1 == k then (k, v) :: rest else p :: objSetV rest k v

/-- JavaScript bracket assignment totals[k] = v for the primitive values
this code stores: assigning through the inherited prototype accessor (key
__proto__ on an object that never acquires an own property of that name,
as here) with a non-object value is a specified no-op that creates no own
property; every other inherited Object.prototype member is a writable data
property, so plain assignment creates or updates an own property. -/
def jsObjAssign (tot : List (String × ObjVal)) (k : String) (v : ObjVal) :
    List (String × ObjVal) :=
  if k == "__proto__" then tot else objSetV tot k v

/-- The value of (totals[k] || 0) + t.amount: an undefined or zero read
defaults to 0 before the addition of the amount; adding a number to an
inherited object or function, or to an own non-numeric string, produces a
non-numeric string. -/
def addAmount : ObjRead → Int → ObjVal
  | ObjRead.undef, a => ObjVal.num a
  | ObjRead.ownNum n, a => ObjVal.num (n + a)
  | ObjRead.ownJunk, _ => ObjVal.junk
  | ObjRead.inherited, _ => ObjVal.junk

/-- One step of the grouping loop of app.js line 483: the assignment
totals[k] = (totals[k] or-default 0) + t.amount under the object semantics
above.  An undefined category_med stringifies to the property key
"undefined", as in JavaScript. -/
def totalsStep (totals : List (String × ObjVal)) (t : Transaction) :
    List (String × ObjVal) :=
  jsObjAssign totals (t.category_med.getD ("undefined"))
    (addAmount (jsObjRead totals (t.category_med.getD ("undefined"))) t.amount)

/-- The category grouping of app.js lines 480-484: filter the expense-kind
records and fold the grouping assignment over them. -/
def categoryTotals (data : List Transaction) : List (String × ObjVal) :=
  (data.filter (fun t => t.type == some ("支出"))).foldl totalsStep []

/-- The numeric value of a stored object value; a non-numeric string counts
0.  The amended claim only ever sums objects proved all-numeric, and the
counterexample object is empty, so this convention carries no weight. -/
def objValNum : ObjVal → Int
  | ObjVal.num n => n
  | ObjVal.junk => 0

/-- The sum of Object.values of the category object (what the chart data of
app.js line 487 adds up to). -/
def sumValues (l : List (String × ObjVal)) : Int :=
  (l.map (fun p => objValNum p.2)).sum

/-- Source app.js lines 446-455 (and its duplicate), deleteTransaction after
the user confirms: keep exactly the records whose id differs. -/
def deleteTransaction (ts : List Transaction) (tid : String) : List Transaction :=
  ts.filter (fun t => !(t.id == tid))

/-- The comparator of the day-detail sort (part_000 lines 563-566): records
of different type order the income kind first; records of equal type order by
amount descending. -/
def dayCmp (a b : Transaction) : Int :=
  if a.type ≠ b.type then (if a.type == some ("収入") then -1 else 1)
  else b.amount - a.amount

/-- Insert one element into a list ordered by a JavaScript comparator,
keeping it before the first element it need not follow. -/
def insertCmp (cmp : α → α → Int) (x : α) : List α → List α
  | [] => [x]
  | y :: ys => if cmp x y ≤ 0 then x :: y :: ys else y :: insertCmp cmp x ys

/-- ECMAScript Array.prototype.sort with a comparator.  For a consistent
comparator the language specification determines the output uniquely (sorted
and stable, since ES2019); stable insertion sort realizes exactly that
output.  For an inconsistent comparator the language leaves the order
implementation-defined, and this model is one admissible choice. -/
def jsSortBy (cmp : α → α → Int) (l : List α) : List α :=
  l.foldr (insertCmp cmp) []

/-- Source part_000 lines 558-566, openDayDetail reduced to the list it
renders: the records whose date equals the exact YYYY-MM-DD string composed
from the clicked calendar cell, sorted income-kind first and by amount
descending within a type. -/
def openDayDetail (ts : List Transaction) (dateStr : String) : List Transaction :=
  jsSortBy dayCmp (ts.filter (fun t => t.date == dateStr))

/-! ### Character facts -/

/-- A decimal digit character has code point between 48 and 57. -/
theorem isDigit_toNat {c : Char} (h : c.isDigit = true) : 48 ≤ c.toNat ∧ c.toNat ≤ 57 := by
  simp only [Char.isDigit, Bool.and_eq_true, decide_eq_true_eq] at h
  obtain ⟨h1, h2⟩ := h
  exact ⟨h1, h2⟩

/-! ### Tokenizer structure (claim C5) -/

/-- Outside quotes, a run of characters that are neither quotes nor commas is
appended verbatim to the current field. -/
theorem splitCSVAux_plain (xs : List Char)
    (h : ∀ c ∈ xs, c ≠ quoteChar ∧ c ≠ Char.ofNat 44) :
    ∀ (rest cur : List Char),
      splitCSVAux (xs ++ rest) cur false = splitCSVAux rest (cur ++ xs) false := by
  induction xs with
  | nil => intro rest cur; simp
  | cons c xs ih =>
    intro rest cur
    obtain ⟨hq, hc⟩ := h c (List.mem_cons_self c xs)
    have hxs : ∀ c ∈ xs, c ≠ quoteChar ∧ c ≠ Char.ofNat 44 :=
      fun c hm => h c (List.mem_cons_of_mem _ hm)
    simp only [List.cons_append, splitCSVAux, beq_iff_eq, hq, hc, if_false,
      Bool.not_false, Bool.and_true, if_neg, ite_false, List.append_eq]
    rw [ih hxs rest (cur ++ [c])]
    simp

/-- Inside quotes, a run of non-quote characters (commas included) is
appended verbatim to the current field. -/
theorem splitCSVAux_quoted (xs : List Char) (h : ∀ c ∈ xs, c ≠ quoteChar) :
    ∀ (rest cur : List Char),
      splitCSVAux (xs ++ rest) cur true = splitCSVAux rest (cur ++ xs) true := by
  induction xs with
  | nil => intro rest cur; simp
  | cons c xs ih =>
    intro rest cur
    have hq := h c (List.mem_cons_self c xs)
    have hxs : ∀ c ∈ xs, c ≠ quoteChar := fun c hm => h c (List.mem_cons_of_mem _ hm)
    simp only [List.cons_append, splitCSVAux, beq_iff_eq, hq, if_false, Bool.not_true,
      Bool.and_false, ite_false, List.append_eq]
    rw [ih hxs rest (cur ++ [c])]
    simp

/-- A comma outside quotes closes the current field. -/
theorem splitCSVAux_comma (rest cur) :
    splitCSVAux (Char.ofNat 44 :: rest) cur false = String.mk cur :: splitCSVAux rest [] false := by
  simp only [splitCSVAux]
  rw [if_neg (by decide), if_pos (by decide)]

/-- A quote character toggles the in-quote flag and emits nothing. -/
theorem splitCSVAux_quote (rest cur b) :
    splitCSVAux (quoteChar :: rest) cur b = splitCSVAux rest cur (!b) := by
  simp only [splitCSVAux]
  rw [if_pos (by decide)]

/-- C5.  The tokenizer splits on commas outside quoted regions, treats a
comma inside a quote-delimited region as literal field content, and strips
the delimiting quote characters: for any field texts a and d free of quotes
and commas and any quoted content q free of quotes (commas allowed), the
line a,"q",d tokenizes to exactly the three fields a, q, d.  Instantiated at
q = b,c this is the spec example. -/
theorem splitCSVLine_quoted_comma (a q d : String)
    (ha : ∀ c ∈ a.data, c ≠ quoteChar ∧ c ≠ Char.ofNat 44)
    (hq : ∀ c ∈ q.data, c ≠ quoteChar)
    (hd : ∀ c ∈ d.data, c ≠ quoteChar ∧ c ≠ Char.ofNat 44) :
    splitCSVLine (a ++ "," ++ "\"" ++ q ++ "\"" ++ "," ++ d) = [a, q, d] := by
  show splitCSVAux (a.data ++ [Char.ofNat 44] ++ [quoteChar] ++ q.data ++ [quoteChar] ++ [Char.ofNat 44] ++ d.data) [] false = [a, q, d]
  rw [show a.data ++ [Char.ofNat 44] ++ [quoteChar] ++ q.data ++ [quoteChar] ++ [Char.ofNat 44] ++ d.data
      = a.data ++ (Char.ofNat 44 :: quoteChar :: (q.data ++ (quoteChar :: Char.ofNat 44 :: d.data))) by simp]
  rw [splitCSVAux_plain a.data ha]
  rw [splitCSVAux_comma, splitCSVAux_quote, show (!false) = true from rfl]
  rw [splitCSVAux_quoted q.data hq]
  rw [splitCSVAux_quote, show (!true) = false from rfl]
  rw [splitCSVAux_comma]
  rw [show d.data = d.data ++ ([] : List Char) by simp]
  rw [splitCSVAux_plain d.data hd]
  simp [splitCSVAux]

/-! ### Deletion (claims C8 and C10) -/

/-- C10.  Deletion by id removes every record whose id equals the given id
(counted with multiplicity, so duplicates all go), keeps every other record
with its multiplicity, and the survivors form a sublist of the original
list, so their relative order is untouched. -/
theorem deleteTransaction_frame (ts : List Transaction) (tid : String) :
    (deleteTransaction ts tid).Sublist ts ∧
    (∀ t ∈ deleteTransaction ts tid, t.id ≠ tid) ∧
    (∀ t : Transaction,
      (deleteTransaction ts tid).count t = if t.id = tid then 0 else ts.count t) := by
  refine ⟨List.filter_sublist _, ?_, ?_⟩
  · intro t ht
    have := (List.mem_filter.mp ht).2
    simpa using this
  · intro t
    by_cases h : t.id = tid
    · rw [if_pos h]
      refine List.count_eq_zero.mpr ?_
      intro hmem
      have := (List.mem_filter.mp hmem).2
      simp [h] at this
    · rw [if_neg h]
      exact List.count_filter (by simpa using h)

/-- C8.  In a Store whose ids are unique, removeById of a present id drops
exactly one record (the one with that id) and removeById of an absent id is
the identity. -/
theorem deleteTransaction_removeById (ts : List Transaction) (tid : String)
    (hu : (ts.map (fun t => t.id)).Nodup) :
    (tid ∈ ts.map (fun t => t.id) →
      (deleteTransaction ts tid).length + 1 = ts.length ∧
      ∀ t ∈ deleteTransaction ts tid, t.id ≠ tid) ∧
    (tid ∉ ts.map (fun t => t.id) → deleteTransaction ts tid = ts) := by
  constructor
  · intro hmem
    constructor
    · induction ts with
      | nil => simp at hmem
      | cons t0 rest ih =>
        simp only [List.map_cons, List.nodup_cons] at hu
        obtain ⟨hnotin, hnd⟩ := hu
        rcases List.mem_cons.mp hmem with heq | hmem'
        · have hrest : List.filter (fun t => !(t.id == tid)) rest = rest := by
            refine List.filter_eq_self.mpr ?_
            intro t ht
            simp only [Bool.not_eq_true', beq_eq_false_iff_ne]
            intro hids
            have hmm : t.id ∈ List.map (fun t => t.id) rest :=
              List.mem_map_of_mem (fun t => t.id) ht
            rw [hids, heq] at hmm
            exact hnotin hmm
          show (List.filter (fun t => !(t.id == tid)) (t0 :: rest)).length + 1 = (t0 :: rest).length
          rw [List.filter_cons, if_neg (by simp [heq])]
          rw [hrest]
          simp
        · have ht0 : t0.id ≠ tid := by
            intro h
            exact hnotin (h ▸ hmem')
          have h2 := ih hnd hmem'
          simp only [deleteTransaction] at h2
          show (List.filter (fun t => !(t.id == tid)) (t0 :: rest)).length + 1 = (t0 :: rest).length
          rw [List.filter_cons, if_pos (by simpa using ht0)]
          simp only [List.length_cons]
          omega
    · intro t ht
      have := (List.mem_filter.mp ht).2
      simpa using this
  · intro hnmem
    refine List.filter_eq_self.mpr ?_
    intro t ht
    simp only [Bool.not_eq_true', beq_eq_false_iff_ne]
    intro hids
    exact hnmem (hids ▸ List.mem_map_of_mem (fun t => t.id) ht)

/-! ### Aggregation algebra (claims C6 and C7) -/

/-- Summing a transaction list with the reduce of the source equals the sum
of the mapped amounts. -/
theorem sumAmounts_eq_sum (l : List Transaction) :
    sumAmounts l = (l.map (fun t => t.amount)).sum := by
  have h : ∀ (l : List Transaction) (a : Int),
      l.foldl (fun s t => s + t.amount) a = a + (l.map (fun t => t.amount)).sum := by
    intro l
    induction l with
    | nil => intro a; simp
    | cons t rest ih =>
      intro a
      simp only [List.foldl_cons, List.map_cons, List.sum_cons, ih]
      ring
  simpa [sumAmounts] using h l 0

/-- One grouping step with a non-prototype key on an all-numeric object
adds the processed amount to the value sum and keeps the object
all-numeric. -/
theorem totalsStep_sum (t : Transaction)
    (hk : t.category_med.getD ("undefined") ∉ objectProtoKeys) :
    ∀ tot : List (String × ObjVal), (∀ p ∈ tot, ∃ n, p.2 = ObjVal.num n) →
      sumValues (totalsStep tot t) = sumValues tot + t.amount ∧
      ∀ p ∈ totalsStep tot t, ∃ n, p.2 = ObjVal.num n := by
  have hkp : ¬(t.category_med.getD ("undefined") == "__proto__") = true := by
    simp only [beq_iff_eq]
    intro h
    exact hk (by rw [h]; decide)
  intro tot
  induction tot with
  | nil =>
    intro _
    have hread : jsObjRead [] (t.category_med.getD ("undefined")) = ObjRead.undef := by
      simp only [jsObjRead, List.find?_nil]
      rw [if_neg hk]
    simp only [totalsStep, hread, addAmount, jsObjAssign]
    rw [if_neg hkp]
    refine ⟨by simp [objSetV, sumValues, objValNum], ?_⟩
    intro p hp
    simp only [objSetV, List.mem_singleton] at hp
    exact ⟨t.amount, by rw [hp]⟩
  | cons q rest ih =>
    intro hall
    have hallr : ∀ p ∈ rest, ∃ n, p.2 = ObjVal.num n :=
      fun p hp => hall p (List.mem_cons_of_mem _ hp)
    by_cases hqk : q.1 = t.category_med.getD ("undefined")
    · obtain ⟨n, hn⟩ := hall q (List.mem_cons_self q rest)
      have hread : jsObjRead (q :: rest) (t.category_med.getD ("undefined")) =
          ObjRead.ownNum n := by
        simp [jsObjRead, List.find?, hqk, hn]
      have hset : totalsStep (q :: rest) t =
          (t.category_med.getD ("undefined"), ObjVal.num (n + t.amount)) :: rest := by
        simp only [totalsStep, hread, addAmount, jsObjAssign]
        rw [if_neg hkp]
        simp [objSetV, hqk]
      rw [hset]
      constructor
      · simp only [sumValues, List.map_cons, List.sum_cons, objValNum, hn]
        omega
      · intro p hp
        rcases List.mem_cons.mp hp with heq | hp'
        · exact ⟨n + t.amount, by rw [heq]⟩
        · exact hallr p hp'
    · have hread : jsObjRead (q :: rest) (t.category_med.getD ("undefined")) =
          jsObjRead rest (t.category_med.getD ("undefined")) := by
        simp only [jsObjRead, List.find?]
        rw [show (q.1 == t.category_med.getD ("undefined")) = false by simpa using hqk]
      have hassign : totalsStep (q :: rest) t = q :: totalsStep rest t := by
        simp only [totalsStep, hread, jsObjAssign]
        rw [if_neg hkp, if_neg hkp]
        simp only [objSetV]
        rw [if_neg (by simpa using hqk)]
      rw [hassign]
      obtain ⟨ihs, ihall⟩ := ih hallr
      constructor
      · simp only [sumValues, List.map_cons, List.sum_cons] at ihs ⊢
        omega
      · intro p hp
        rcases List.mem_cons.mp hp with heq | hp'
        · exact heq ▸ hall q (List.mem_cons_self q rest)
        · exact ihall p hp'

/-- The grouping fold over records with non-prototype categories adds each
processed amount to the value sum and keeps every stored value numeric. -/
theorem sumValues_categoryFold (l : List Transaction)
    (hk : ∀ t ∈ l, t.category_med.getD ("undefined") ∉ objectProtoKeys) :
    ∀ acc : List (String × ObjVal), (∀ p ∈ acc, ∃ n, p.2 = ObjVal.num n) →
      sumValues (l.foldl totalsStep acc) =
        sumValues acc + (l.map (fun t => t.amount)).sum ∧
      ∀ p ∈ l.foldl totalsStep acc, ∃ n, p.2 = ObjVal.num n := by
  induction l with
  | nil => intro acc hacc; simpa using hacc
  | cons t rest ih =>
    intro acc hacc
    obtain ⟨hs, hall⟩ := totalsStep_sum t (hk t (List.mem_cons_self t rest)) acc hacc
    obtain ⟨ihs, ihall⟩ :=
      ih (fun u hu => hk u (List.mem_cons_of_mem _ hu)) (totalsStep acc t) hall
    simp only [List.foldl_cons, List.map_cons, List.sum_cons]
    refine ⟨?_, ihall⟩
    rw [ihs, hs]
    ring

/-- C7 amended.  For every transaction set and month, provided no
expense-kind record of the month carries a category_med equal to an
Object.prototype property name, the per-category totals are all numeric and
their values sum to the month's total expense; non-expense records are
excluded from the grouping by the filter itself.  The proviso is forced:
on such keys the grouping object's prototype chain interferes (the
prototype accessor silently discards the write, the other inherited members
turn the running total into a string), so the unconditional claim is false
of the program (see the counterexample). -/
theorem categoryTotals_sum_eq_monthExpense (ts : List Transaction) (m : String)
    (h : ∀ t ∈ monthData ts m, t.type = some ("支出") →
      t.category_med.getD ("undefined") ∉ objectProtoKeys) :
    (∀ p ∈ categoryTotals (monthData ts m), ∃ n : Int, p.2 = ObjVal.num n) ∧
    sumValues (categoryTotals (monthData ts m)) = monthExpense ts m := by
  have hk : ∀ t ∈ (monthData ts m).filter (fun t => t.type == some ("支出")),
      t.category_med.getD ("undefined") ∉ objectProtoKeys := by
    intro t ht
    obtain ⟨hmem, hty⟩ := List.mem_filter.mp ht
    exact h t hmem (by simpa using hty)
  obtain ⟨hs, hall⟩ :=
    sumValues_categoryFold ((monthData ts m).filter (fun t => t.type == some ("支出")))
      hk [] (by simp)
  refine ⟨hall, ?_⟩
  unfold categoryTotals monthExpense
  rw [hs, sumAmounts_eq_sum]
  simp [sumValues]

/-- C7 counterexample.  An expense of 1200 whose category_med is the
prototype key: the read yields the inherited prototype object (truthy), the
addition turns it into a string, and the prototype-accessor assignment
silently discards that string, so the grouping object stays empty and its
values sum to 0 while the month expense is 1200 — category totals do not
sum to the month expense on every transaction set. -/
theorem categoryTotals_proto_cex :
    categoryTotals (monthData
      [{ id := "p1", date := "2025-03-15", year := some 2025, month := some 3,
         day := some 15, type := some ("支出"), category_med := some ("__proto__"),
         category_sml := some (""), detail := some (""), amount := 1200,
         value_type := some (""), payee := some (""), method := some ("") }]
      ("2025-03")) = [] ∧
    monthExpense
      [{ id := "p1", date := "2025-03-15", year := some 2025, month := some 3,
         day := some 15, type := some ("支出"), category_med := some ("__proto__"),
         category_sml := some (""), detail := some (""), amount := 1200,
         value_type := some (""), payee := some (""), method := some ("") }]
      ("2025-03") = 1200 := by
  exact ⟨rfl, rfl⟩

/-- C6 amended.  For every transaction set and month, income minus expense
equals the balance (unconditionally, by the defining computation); and
whenever every amount in the set is non-negative, the income and expense
totals are non-negative.  The non-negativity cannot be unconditional: the
pipeline accepts negative amounts (see the counterexample). -/
theorem month_totals_invariant (ts : List Transaction) (m : String) :
    monthIncome ts m - monthExpense ts m = monthBalance ts m ∧
    ((∀ t ∈ ts, 0 ≤ t.amount) →
      0 ≤ monthIncome ts m ∧ 0 ≤ monthExpense ts m) := by
  constructor
  · rfl
  · intro h
    constructor
    · rw [monthIncome, sumAmounts_eq_sum]
      refine List.sum_nonneg ?_
      intro x hx
      obtain ⟨t, ht, rfl⟩ := List.mem_map.mp hx
      exact h t (List.mem_filter.mp (List.mem_filter.mp ht).1).1
    · rw [monthExpense, sumAmounts_eq_sum]
      refine List.sum_nonneg ?_
      intro x hx
      obtain ⟨t, ht, rfl⟩ := List.mem_map.mp hx
      exact h t (List.mem_filter.mp (List.mem_filter.mp ht).1).1

/-- C6 counterexample.  The claim asserts non-negative income and expense
for every transaction set; a set holding an income record of amount -500
(which the import pipeline itself produces from an amount field of -500,
see the parseAmount counterexample) has a negative month income. -/
theorem month_totals_cex :
    monthIncome
      [{ id := "n1", date := "2025-03-15", year := some 2025, month := some 3,
         day := some 15, type := some ("収入"), category_med := some ("c"),
         category_sml := some (""), detail := some (""), amount := -500,
         value_type := some (""), payee := some (""), method := some ("") }]
      ("2025-03") = -500 := by decide

/-! ### Amount parsing (claim C3) -/

/-- Folding decimal digits from a non-negative accumulator stays
non-negative. -/
theorem digitsVal_nonneg (ds : List Char) (h : ∀ c ∈ ds, c.isDigit = true) :
    0 ≤ digitsVal ds := by
  have gen : ∀ (ds : List Char) (a : Int), 0 ≤ a → (∀ c ∈ ds, c.isDigit = true) →
      0 ≤ ds.foldl (fun a c => a * 10 + digitVal c) a := by
    intro ds
    induction ds with
    | nil => intro a ha _; simpa using ha
    | cons c rest ih =>
      intro a ha hme
      simp only [List.foldl_cons]
      refine ih (a * 10 + digitVal c) ?_ (fun c hm => hme c (List.mem_cons_of_mem _ hm))
      have hc := isDigit_toNat (hme c (List.mem_cons_self c rest))
      have h1 : (48 : Int) ≤ (c.toNat : Int) := by exact_mod_cast hc.1
      unfold digitVal
      nlinarith
  exact gen ds 0 le_rfl h

/-- A hexadecimal digit has non-negative value. -/
theorem hexDigitVal_nonneg (c : Char) (h : isHexDigitChar c = true) :
    0 ≤ hexDigitVal c := by
  unfold isHexDigitChar at h
  unfold hexDigitVal
  by_cases hd : c.isDigit = true
  · rw [if_pos hd]
    have hc := isDigit_toNat hd
    have h1 : (48 : Int) ≤ (c.toNat : Int) := by exact_mod_cast hc.1
    omega
  · rw [if_neg hd]
    simp only [hd, Bool.false_or, Bool.or_eq_true, Bool.and_eq_true, decide_eq_true_eq] at h
    by_cases h97 : 97 ≤ c.toNat
    · rw [if_pos h97]; rcases h with h | h <;> omega
    · rw [if_neg h97]; rcases h with h | h <;> omega

/-- Folding hexadecimal digits from a non-negative accumulator stays
non-negative. -/
theorem hexVal_nonneg (ds : List Char) (h : ∀ c ∈ ds, isHexDigitChar c = true) :
    0 ≤ hexVal ds := by
  have gen : ∀ (ds : List Char) (a : Int), 0 ≤ a → (∀ c ∈ ds, isHexDigitChar c = true) →
      0 ≤ ds.foldl (fun a c => a * 16 + hexDigitVal c) a := by
    intro ds
    induction ds with
    | nil => intro a ha _; simpa using ha
    | cons c rest ih =>
      intro a ha hme
      simp only [List.foldl_cons]
      refine ih (a * 16 + hexDigitVal c) ?_ (fun c hm => hme c (List.mem_cons_of_mem _ hm))
      have := hexDigitVal_nonneg c (hme c (List.mem_cons_self c rest))
      nlinarith
  exact gen ds 0 le_rfl h

/-- The digits part of parseInt never denotes a negative number. -/
theorem parseIntDigits_nonneg (cs : List Char) (n : Int)
    (h : parseIntDigits cs = some n) : 0 ≤ n := by
  unfold parseIntDigits at h
  split_ifs at h with hx he hd
  · rw [← Option.some_inj.mp h]
    exact hexVal_nonneg _ (fun c hc => List.mem_takeWhile_imp hc)
  · rw [← Option.some_inj.mp h]
    exact digitsVal_nonneg _ (fun c hc => List.mem_takeWhile_imp hc)

/-- parseInt of a string that does not begin (after the whitespace skip)
with a minus sign never returns a negative number. -/
theorem parseIntJS_nonneg (s : String) (n : Int) (hn : parseIntJS s = some n)
    (hh : (s.data.dropWhile jsWhitespace).head? ≠ some minusChar) : 0 ≤ n := by
  unfold parseIntJS at hn
  cases hcs : s.data.dropWhile jsWhitespace with
  | nil => rw [hcs] at hn; simp [parseIntCore] at hn
  | cons c rest =>
    rw [hcs] at hn
    rw [hcs] at hh
    simp only [List.head?_cons, ne_eq, Option.some.injEq] at hh
    simp only [parseIntCore] at hn
    rw [if_neg (by simpa using hh)] at hn
    split_ifs at hn
    · exact parseIntDigits_nonneg rest n hn
    · exact parseIntDigits_nonneg (c :: rest) n hn

/-- C3 amended.  For every amount field, parseAmount yields an integer (the
model's codomain, matching parseInt which returns an integral number or
NaN), defaulting to 0 when the cleaned field has no parsable integer, and it
is non-negative whenever the cleaned field does not begin with a minus sign.
The unconditional non-negativity of the original claim fails: a minus sign
survives the quote-and-comma strip and parses (see the counterexample). -/
theorem parseAmount_amended (s : String) :
    parseAmount none = 0 ∧
    (parseIntJS (cleanAmount s) = none → parseAmount (some s) = 0) ∧
    (((cleanAmount s).data.dropWhile jsWhitespace).head? ≠ some minusChar →
      0 ≤ parseAmount (some s)) := by
  refine ⟨rfl, ?_, ?_⟩
  · intro h
    simp only [parseAmount, h]
    simp [orZero]
  · intro hh
    simp only [parseAmount]
    split_ifs with he
    · simp
    · cases hp : parseIntJS (cleanAmount s) with
      | none => simp [hp, orZero]
      | some n =>
        have hn := parseIntJS_nonneg (cleanAmount s) n hp hh
        simp only [orZero]
        split_ifs with h0
        · simp
        · exact hn

/-- C3 counterexample.  The amount field -500 (no quotes or commas to strip)
parses to the negative integer -500: parseAmount is not non-negative on all
fields. -/
theorem parseAmount_cex :
    parseAmount (some ("-500")) = -500 ∧ parseAmount (some ("-500")) < 0 := by
  exact ⟨by decide, by decide⟩

/-! ### Import pipeline structure (claims C1, C4 and partly C2) -/

/-- When every data line after the header has at least three fields, the
loop of the importer never throws and produces one Transaction per data
line, in input order, numbering the emitted records consecutively. -/
theorem parseLines_eq (genId : Nat → String) (ls : List String) :
    ∀ n : Nat,
      (∀ l ∈ ls, isDataLine (jsTrim l) = true → 2 < (splitCSVLine (jsTrim l)).length) →
      parseLines genId ls n =
        Except.ok ((List.enumFrom n ((ls.map jsTrim).filter isDataLine)).map
          (fun p => normalizeCols genId p.1 (splitCSVLine p.2))) := by
  induction ls with
  | nil => intro n h; simp [parseLines]
  | cons l rest ih =>
    intro n h
    have hrest : ∀ l ∈ rest, isDataLine (jsTrim l) = true → 2 < (splitCSVLine (jsTrim l)).length :=
      fun l hm => h l (List.mem_cons_of_mem _ hm)
    simp only [parseLines]
    by_cases he : jsTrim l = ""
    · rw [if_pos (by simpa using he)]
      have hnd : isDataLine (jsTrim l) = false := by
        simp [isDataLine, he]
      rw [ih n hrest]
      simp [hnd]
    · by_cases hg : fourDigits ((splitCSVLine (jsTrim l)).getD 0 "") = true
      · have hd : isDataLine (jsTrim l) = true := by
          unfold isDataLine
          rw [hg]
          simp [he]
        have hlen := h l (List.mem_cons_self _ _) hd
        have h1 : 1 < (splitCSVLine (jsTrim l)).length := by omega
        have h1' := List.get?_eq_get h1
        have h2' := List.get?_eq_get hlen
        rw [if_neg (by simpa using he), if_pos hg]
        simp only [mkItem, h1', h2']
        rw [ih (n + 1) hrest]
        simp [hd]
      · have hnd : isDataLine (jsTrim l) = false := by
          unfold isDataLine
          rw [show fourDigits ((splitCSVLine (jsTrim l)).getD 0 "") = false by simpa using hg]
          simp
        rw [if_neg (by simpa using he), if_neg hg]
        rw [ih n hrest]
        simp [hnd]

/-- C1 amended.  Once text is obtained the import pipeline succeeds with a
(possibly empty) list of Transactions and silently skips malformed lines,
provided every line whose first tokenized field is exactly four digits
tokenizes to at least three fields; a four-digit-gated line with fewer than
three fields makes the source throw a TypeError instead (reading padStart on
an undefined field), so the unconditional claim fails (see the
counterexample). -/
theorem parseCSVText_no_throw (genId : Nat → String) (text : String)
    (h : ∀ l ∈ csvLines text, isDataLine (jsTrim l) = true →
      2 < (splitCSVLine (jsTrim l)).length) :
    ∃ out, parseCSVText genId text = Except.ok out := by
  exact ⟨_, parseLines_eq genId (csvLines text) 0 h⟩

/-- C1 witness instantiation at a concrete import: a text with a header
line, one well-formed data line and one footer line parses successfully. -/
theorem parseCSVText_no_throw_witness :
    (parseCSVText (fun _ => "u")
      ("h\n2025,3,15,支出,食費,,Lunch,1200,,ShopA,Cash\nTOTAL,,,,,,,,,,")).toOption.isSome = true := by
  obtain ⟨out, hout⟩ := parseCSVText_no_throw (fun _ => "u")
    ("h\n2025,3,15,支出,食費,,Lunch,1200,,ShopA,Cash\nTOTAL,,,,,,,,,,")
    (by decide)
  rw [hout]
  rfl

/-- C1 counterexample.  The line 2025 after the header passes the four-digit
gate but tokenizes to a single field, so the source evaluates padStart on an
undefined month field and throws: the pipeline does not succeed on every
input text. -/
theorem parseCSVText_throws_cex :
    parseCSVText (fun _ => "u") ("h\n2025") = Except.error ("TypeError") := by
  rfl

/-- C4 amended.  Under the same at-least-three-fields condition, the
pipeline emits exactly one Transaction per non-empty, non-header line whose
first tokenized field is exactly four digits, in the order those lines
appear in the input: the output is precisely the normalization of the data
lines enumerated in input order. -/
theorem parseCSVText_count_order (genId : Nat → String) (text : String)
    (h : ∀ l ∈ csvLines text, isDataLine (jsTrim l) = true →
      2 < (splitCSVLine (jsTrim l)).length) :
    ∃ out, parseCSVText genId text = Except.ok out ∧
      out.length = (validLines text).length ∧
      out = (validLines text).enum.map (fun p => normalizeCols genId p.1 (splitCSVLine p.2)) := by
  refine ⟨_, parseLines_eq genId (csvLines text) 0 h, ?_, ?_⟩
  · simp [validLines, List.enum]
  · simp [validLines, List.enum]

/-- C4 witness instantiation: a concrete text with one header, two data
lines, an empty line and a footer emits exactly the two data lines in input
order. -/
theorem parseCSVText_count_order_witness :
    ((parseCSVText (fun _ => "u")
      ("h\n2025,3,15,支出,食費,,Lunch,1200,,ShopA,Cash\n\n2025,3,16,収入,給与,,,300000,,,Bank\nTOTAL,,,,,,,,,,")).toOption.getD []).length =
    (validLines ("h\n2025,3,15,支出,食費,,Lunch,1200,,ShopA,Cash\n\n2025,3,16,収入,給与,,,300000,,,Bank\nTOTAL,,,,,,,,,,")).length := by
  obtain ⟨out, h1, h2, h3⟩ := parseCSVText_count_order (fun _ => "u")
    ("h\n2025,3,15,支出,食費,,Lunch,1200,,ShopA,Cash\n\n2025,3,16,収入,給与,,,300000,,,Bank\nTOTAL,,,,,,,,,,")
    (by decide)
  rw [h1]
  simpa using h2

/-- C4 counterexample.  The input has exactly one non-empty non-header line
whose first tokenized field is four digits, so the claim demands exactly one
emitted Transaction, but the source throws (the line has only two fields and
the day access is undefined). -/
theorem parseCSVText_count_cex :
    parseCSVText (fun _ => "u") ("h\n2025,3") = Except.error ("TypeError") ∧
    (validLines ("h\n2025,3")).length = 1 := by
  exact ⟨rfl, rfl⟩

/-! ### Date well-formedness (claim C2) -/

/-- A run of non-separator characters is appended verbatim by the split. -/
theorem splitOnCharAux_plain (sep : Char) (xs : List Char) (h : ∀ c ∈ xs, c ≠ sep) :
    ∀ (rest acc : List Char),
      splitOnCharAux sep (xs ++ rest) acc = splitOnCharAux sep rest (acc ++ xs) := by
  induction xs with
  | nil => intro rest acc; simp
  | cons c xs ih =>
    intro rest acc
    have hc := h c (List.mem_cons_self c xs)
    have hxs : ∀ c ∈ xs, c ≠ sep := fun c hm => h c (List.mem_cons_of_mem _ hm)
    simp only [List.cons_append, splitOnCharAux, beq_iff_eq, hc, if_false,
      if_neg, ite_false, List.append_eq]
    rw [ih hxs rest (acc ++ [c])]
    simp

/-- A separator character closes the current component. -/
theorem splitOnCharAux_sep (sep : Char) (rest acc : List Char) :
    splitOnCharAux sep (sep :: rest) acc = String.mk acc :: splitOnCharAux sep rest [] := by
  simp [splitOnCharAux]

/-- Splitting a three-component dash-joined string recovers the components
when none of them contains a dash. -/
theorem splitOnChar_three (y m d : String)
    (hy : ∀ c ∈ y.data, c ≠ dashChar) (hm : ∀ c ∈ m.data, c ≠ dashChar)
    (hd : ∀ c ∈ d.data, c ≠ dashChar) :
    splitOnChar dashChar (y ++ "-" ++ m ++ "-" ++ d) = [y, m, d] := by
  show splitOnCharAux dashChar (y.data ++ [dashChar] ++ m.data ++ [dashChar] ++ d.data) [] = _
  rw [show y.data ++ [dashChar] ++ m.data ++ [dashChar] ++ d.data
      = y.data ++ (dashChar :: (m.data ++ (dashChar :: d.data))) by simp]
  rw [splitOnCharAux_plain dashChar y.data hy]
  rw [splitOnCharAux_sep]
  rw [splitOnCharAux_plain dashChar m.data hm]
  rw [splitOnCharAux_sep]
  rw [show d.data = d.data ++ ([] : List Char) by simp]
  rw [splitOnCharAux_plain dashChar d.data hd]
  simp [splitOnCharAux]

/-- A decimal digit is not the dash character. -/
theorem isDigit_ne_dash {c : Char} (h : c.isDigit = true) : c ≠ dashChar := by
  intro he
  rw [he] at h
  exact absurd h (by decide)

/-- A decimal digit is not the minus character. -/
theorem isDigit_ne_minus {c : Char} (h : c.isDigit = true) : c ≠ minusChar := by
  intro he
  rw [he] at h
  exact absurd h (by decide)

/-- Padding a digit string of length at most two yields exactly two
digits. -/
theorem twoDigits_padStart2 (s : String) (h : shortDigits s = true) :
    twoDigits (padStart2 s) = true := by
  unfold shortDigits at h
  simp only [Bool.and_eq_true, decide_eq_true_eq, List.all_eq_true] at h
  obtain ⟨hlen, hall⟩ := h
  unfold padStart2 twoDigits
  by_cases h2 : 2 ≤ s.data.length
  · rw [if_pos h2]
    simp only [Bool.and_eq_true, beq_iff_eq, List.all_eq_true]
    exact ⟨by omega, hall⟩
  · rw [if_neg h2]
    show ((List.replicate (2 - s.data.length) (Char.ofNat 48) ++ s.data).length == 2 &&
      (List.replicate (2 - s.data.length) (Char.ofNat 48) ++ s.data).all Char.isDigit) = true
    simp only [Bool.and_eq_true, beq_iff_eq, List.length_append, List.length_replicate,
      List.all_append, List.all_eq_true]
    refine ⟨by omega, ?_, hall⟩
    intro c hc
    rw [List.eq_of_mem_replicate hc]
    decide

/-- Every Transaction built by the normalizer from a gated line whose month
and day fields are digit strings of length at most two satisfies the
redundant-date invariant. -/
theorem dateConsistentB_normalizeCols (genId : Nat → String) (n : Nat) (cols : List String)
    (h0 : fourDigits (cols.getD 0 "") = true)
    (h1 : shortDigits (cols.getD 1 "") = true)
    (h2 : shortDigits (cols.getD 2 "") = true) :
    dateConsistentB (normalizeCols genId n cols) = true := by
  have hm2 := twoDigits_padStart2 _ h1
  have hd2 := twoDigits_padStart2 _ h2
  have hy_digits : ∀ c ∈ (cols.getD 0 "").data, c.isDigit = true := by
    simp only [fourDigits, Bool.and_eq_true, List.all_eq_true] at h0
    exact h0.2
  have hm_digits : ∀ c ∈ (padStart2 (cols.getD 1 "")).data, c.isDigit = true := by
    simp only [twoDigits, Bool.and_eq_true, List.all_eq_true] at hm2
    exact hm2.2
  have hd_digits : ∀ c ∈ (padStart2 (cols.getD 2 "")).data, c.isDigit = true := by
    simp only [twoDigits, Bool.and_eq_true, List.all_eq_true] at hd2
    exact hd2.2
  have hsplit := splitOnChar_three (cols.getD 0 "") (padStart2 (cols.getD 1 ""))
    (padStart2 (cols.getD 2 ""))
    (fun c hc => isDigit_ne_dash (hy_digits c hc))
    (fun c hc => isDigit_ne_dash (hm_digits c hc))
    (fun c hc => isDigit_ne_dash (hd_digits c hc))
  simp only [List.getD_eq_getElem?_getD] at h0 hm2 hd2 hsplit
  simp only [dateConsistentB, normalizeCols, isYYYYMMDD, hsplit]
  simp [hsplit, h0, hm2, hd2]

/-- A decimal digit is not ECMAScript whitespace. -/
theorem isDigit_not_whitespace {c : Char} (h : c.isDigit = true) :
    jsWhitespace c = false := by
  have hb := isDigit_toNat h
  unfold jsWhitespace
  simp only [Bool.or_eq_false_iff, beq_eq_false_iff_ne, ne_eq, Bool.and_eq_false_iff,
    decide_eq_false_iff_not, not_le]
  omega

/-- An all-digit list never selects the hexadecimal radix of parseInt. -/
theorem parseIntHexForm_digits (cs : List Char) (h : ∀ c ∈ cs, c.isDigit = true) :
    parseIntHexForm cs = false := by
  match cs with
  | [] => rfl
  | [c] => rfl
  | c0 :: c1 :: rest =>
    have hb := isDigit_toNat (h c1 (by simp))
    simp only [parseIntHexForm, Bool.and_eq_false_iff, Bool.or_eq_false_iff,
      beq_eq_false_iff_ne, ne_eq]
    right
    omega

/-- On a non-empty all-digit string, the manual-entry Number conversion and
parseInt agree: both denote the decimal value of the digits. -/
theorem digitString_parse (s : String) (hne : s.data ≠ [])
    (hall : ∀ c ∈ s.data, c.isDigit = true) :
    jsNumberInt s = some (digitsVal s.data) ∧ parseIntJS s = some (digitsVal s.data) := by
  have hdw : s.data.dropWhile jsWhitespace = s.data := by
    cases hsd : s.data with
    | nil => simp
    | cons c rest =>
      rw [List.dropWhile_cons, if_neg]
      have hc : c ∈ s.data := hsd ▸ List.mem_cons_self c rest
      simp [isDigit_not_whitespace (hall c hc)]
  have hrev : s.data.reverse.dropWhile jsWhitespace = s.data.reverse := by
    cases hsd : s.data.reverse with
    | nil => simp
    | cons c rest =>
      rw [List.dropWhile_cons, if_neg]
      have hc : c ∈ s.data := by
        rw [← List.mem_reverse, hsd]
        exact List.mem_cons_self c rest
      simp [isDigit_not_whitespace (hall c hc)]
  constructor
  · rw [jsNumberInt, hdw, hrev, List.reverse_reverse]
    cases hsd : s.data with
    | nil => exact absurd hsd hne
    | cons c rest =>
      have hme : ∀ x ∈ c :: rest, x.isDigit = true := fun x hx => hall x (hsd ▸ hx)
      have hc : c.isDigit = true := hme c (List.mem_cons_self c rest)
      have hb := isDigit_toNat hc
      simp only [jsNumberCore]
      rw [if_neg (by simpa using isDigit_ne_minus hc)]
      rw [if_neg (by simp; omega)]
      rw [if_pos (by simpa using hme)]
  · simp only [parseIntJS, hdw]
    cases hsd : s.data with
    | nil => exact absurd hsd hne
    | cons c rest =>
      have hme : ∀ x ∈ c :: rest, x.isDigit = true := fun x hx => hall x (hsd ▸ hx)
      have hc : c.isDigit = true := hme c (List.mem_cons_self c rest)
      have hb := isDigit_toNat hc
      simp only [parseIntCore]
      rw [if_neg (by simpa using isDigit_ne_minus hc)]
      rw [if_neg (by simp; omega)]
      unfold parseIntDigits
      rw [if_neg (by simp [parseIntHexForm_digits (c :: rest) hme])]
      rw [List.takeWhile_eq_self_iff.mpr hme]
      simp

/-- C2 amended.  Every Transaction actually placed in the Store satisfies
the redundant-date invariant (date is a syntactically valid YYYY-MM-DD
string whose parsed components equal the year, month, day fields) under the
premises the source relies on: for the CSV pipeline, that each data line has
at least three fields and digit-string month and day fields of length at
most two (the source never validates these, so the unconditional claim
fails, see the counterexample); for manual entry, that the submitted date
value is a well-formed YYYY-MM-DD string (what a date input produces). -/
theorem store_date_invariant :
    (∀ (genId : Nat → String) (text : String) (out : List Transaction),
      (∀ l ∈ csvLines text, isDataLine (jsTrim l) = true →
        2 < (splitCSVLine (jsTrim l)).length ∧
        shortDigits ((splitCSVLine (jsTrim l)).getD 1 "") = true ∧
        shortDigits ((splitCSVLine (jsTrim l)).getD 2 "") = true) →
      parseCSVText genId text = Except.ok out →
      ∀ t ∈ out, dateConsistentB t = true) ∧
    (∀ (newId dateVal typeVal amountStr categoryMed detailVal methodVal valueTypeVal : String)
       (ts : List Transaction) (item : Transaction),
      isYYYYMMDD dateVal = true →
      handleEntrySubmit newId dateVal typeVal amountStr categoryMed detailVal methodVal
        valueTypeVal ts = item :: ts →
      dateConsistentB item = true) := by
  constructor
  · intro genId text out hcols hok t ht
    have hlen : ∀ l ∈ csvLines text, isDataLine (jsTrim l) = true →
        2 < (splitCSVLine (jsTrim l)).length :=
      fun l hm hd => (hcols l hm hd).1
    have heq := parseLines_eq genId (csvLines text) 0 hlen
    rw [show parseCSVText genId text = parseLines genId (csvLines text) 0 from rfl] at hok
    rw [heq] at hok
    injection hok with hout
    subst hout
    obtain ⟨⟨i, l⟩, hmem, rfl⟩ := List.mem_map.mp ht
    have hl : l ∈ (List.map jsTrim (csvLines text)).filter isDataLine := by
      have := List.mem_map_of_mem Prod.snd hmem
      rwa [List.enumFrom_map_snd] at this
    obtain ⟨hl1, hdl⟩ := List.mem_filter.mp hl
    obtain ⟨l0, hl0, rfl⟩ := List.mem_map.mp hl1
    have hc := hcols l0 hl0 hdl
    have h0 : fourDigits ((splitCSVLine (jsTrim l0)).getD 0 "") = true := by
      simp only [isDataLine, Bool.and_eq_true] at hdl
      simpa using hdl.2
    exact dateConsistentB_normalizeCols genId i (splitCSVLine (jsTrim l0)) h0 hc.2.1 hc.2.2
  · intro newId dateVal typeVal amountStr categoryMed detailVal methodVal valueTypeVal ts item hdate heq
    cases hsp : splitOnChar dashChar dateVal with
    | nil => rw [isYYYYMMDD, hsp] at hdate; simp at hdate
    | cons y tl =>
      cases tl with
      | nil => rw [isYYYYMMDD, hsp] at hdate; simp at hdate
      | cons m tl2 =>
        cases tl2 with
        | nil => rw [isYYYYMMDD, hsp] at hdate; simp at hdate
        | cons d tl3 =>
          cases tl3 with
          | cons e tl4 => rw [isYYYYMMDD, hsp] at hdate; simp at hdate
          | nil =>
            rw [isYYYYMMDD, hsp] at hdate
            simp only [Bool.and_eq_true] at hdate
            obtain ⟨⟨hy4, hm2⟩, hd2⟩ := hdate
            have hyd : ∀ c ∈ y.data, c.isDigit = true := by
              simp only [fourDigits, Bool.and_eq_true, List.all_eq_true] at hy4
              exact hy4.2
            have hmd : ∀ c ∈ m.data, c.isDigit = true := by
              simp only [twoDigits, Bool.and_eq_true, List.all_eq_true] at hm2
              exact hm2.2
            have hdd : ∀ c ∈ d.data, c.isDigit = true := by
              simp only [twoDigits, Bool.and_eq_true, List.all_eq_true] at hd2
              exact hd2.2
            have hyne : y.data ≠ [] := by
              simp only [fourDigits, Bool.and_eq_true, beq_iff_eq] at hy4
              exact List.ne_nil_of_length_pos (by omega)
            have hmne : m.data ≠ [] := by
              simp only [twoDigits, Bool.and_eq_true, beq_iff_eq] at hm2
              exact List.ne_nil_of_length_pos (by omega)
            have hdne : d.data ≠ [] := by
              simp only [twoDigits, Bool.and_eq_true, beq_iff_eq] at hd2
              exact List.ne_nil_of_length_pos (by omega)
            have hne : ¬(dateVal = "") := by
              intro h
              rw [h] at hsp
              rw [show splitOnChar dashChar ("") = [String.mk []] from rfl] at hsp
              simp at hsp
            rw [handleEntrySubmit] at heq
            cases hpa : parseIntJS amountStr with
            | none => rw [hpa] at heq; exact absurd heq.symm (List.cons_ne_self item ts)
            | some a =>
              rw [hpa] at heq
              simp only [] at heq
              rw [if_neg (by simpa using hne)] at heq
              injection heq with hitem
              rw [← hitem]
              simp only [dateConsistentB, hsp, isYYYYMMDD]
              simp only [List.map_cons, List.getD_cons_zero, List.getD_cons_succ]
              rw [(digitString_parse y hyne hyd).1, (digitString_parse y hyne hyd).2]
              rw [(digitString_parse m hmne hmd).1, (digitString_parse m hmne hmd).2]
              rw [(digitString_parse d hdne hdd).1, (digitString_parse d hdne hdd).2]
              simp [hy4, hm2, hd2]

/-- C2 counterexample.  A CSV line whose month and day fields are not
digits passes the four-digit year gate and is normalized into a stored
Transaction whose date 2025-ab-cd is not a valid YYYY-MM-DD string (and
whose month and day fields are NaN): the Store does hold a Transaction with
an unparsable date. -/
theorem store_date_invariant_cex :
    parseCSVText (fun _ => "x") ("h\n2025,ab,cd,t,c,s,u,5,v,p,w") =
      Except.ok [{ id := "x", date := "2025-ab-cd", year := some 2025, month := none,
                   day := none, type := some ("t"), category_med := some ("c"),
                   category_sml := some ("s"), detail := some ("u"), amount := 5,
                   value_type := some ("v"), payee := some ("p"), method := some ("w") }] ∧
    isYYYYMMDD ("2025-ab-cd") = false := by
  exact ⟨rfl, rfl⟩

/-- C2 witness instantiation: a concrete CSV import and a concrete manual
entry both yield date-consistent records. -/
theorem store_date_invariant_witness :
    dateConsistentB (normalizeCols (fun _ => "u") 0
      (splitCSVLine ("2025,3,15,支出,食費,,Lunch,1200,,ShopA,Cash"))) = true ∧
    dateConsistentB ({ id := "w", date := "2025-03-15", year := some 2025,
                       month := some 3, day := some 15, type := some ("支出"),
                       category_med := some ("食費"), category_sml := some (""),
                       detail := some ("Lunch"), amount := 1200, value_type := some (""),
                       payee := some (""), method := some ("Cash") } : Transaction) = true := by
  constructor
  · exact store_date_invariant.1 (fun _ => "u") ("h\n2025,3,15,支出,食費,,Lunch,1200,,ShopA,Cash")
      [normalizeCols (fun _ => "u") 0 (splitCSVLine ("2025,3,15,支出,食費,,Lunch,1200,,ShopA,Cash"))]
      (by decide) rfl _ (List.mem_singleton.mpr rfl)
  · exact store_date_invariant.2 ("w") ("2025-03-15") ("支出") ("1200") ("食費") ("Lunch") ("Cash") ("") []
      _ (by decide) rfl

/-! ### Day-detail sort (claim C9) -/

/-- A record of one of the two financial kinds. -/
def isFinKind (t : Transaction) : Prop :=
  t.type = some ("収入") ∨ t.type = some ("支出")

/-- Inserting into a comparator-ordered list permutes the element in. -/
theorem insertCmp_perm {α : Type} (cmp : α → α → Int) (x : α) (l : List α) :
    (insertCmp cmp x l).Perm (x :: l) := by
  induction l with
  | nil => simp [insertCmp]
  | cons y ys ih =>
    simp only [insertCmp]
    split_ifs with hc
    · exact List.Perm.refl _
    · exact (List.Perm.cons y ih).trans (List.Perm.swap x y ys)

/-- The sort model permutes its input. -/
theorem jsSortBy_perm {α : Type} (cmp : α → α → Int) (l : List α) :
    (jsSortBy cmp l).Perm l := by
  induction l with
  | nil => simp [jsSortBy]
  | cons x xs ih =>
    simp only [jsSortBy, List.foldr_cons] at ih ⊢
    exact (insertCmp_perm cmp x _).trans (List.Perm.cons x ih)

/-- Inserting into a pairwise-ordered list preserves pairwise order when
the comparator is total and transitive on the elements involved. -/
theorem insertCmp_pairwise {α : Type} (cmp : α → α → Int) (P : α → Prop) (x : α) (l : List α)
    (htot : ∀ a b, P a → P b → cmp a b ≤ 0 ∨ cmp b a ≤ 0)
    (htr : ∀ a b c, P a → P b → P c → cmp a b ≤ 0 → cmp b c ≤ 0 → cmp a c ≤ 0)
    (hx : P x) (hl : ∀ y ∈ l, P y)
    (hp : l.Pairwise (fun a b => cmp a b ≤ 0)) :
    (insertCmp cmp x l).Pairwise (fun a b => cmp a b ≤ 0) := by
  induction l with
  | nil => simp [insertCmp]
  | cons y ys ih =>
    obtain ⟨hy, hys⟩ := List.pairwise_cons.mp hp
    simp only [insertCmp]
    split_ifs with hc
    · refine List.pairwise_cons.mpr ⟨?_, hp⟩
      intro z hz
      rcases List.mem_cons.mp hz with rfl | hz'
      · exact hc
      · exact htr x y z hx (hl y (List.mem_cons_self y ys))
          (hl z (List.mem_cons_of_mem _ hz')) hc (hy z hz')
    · refine List.pairwise_cons.mpr
        ⟨?_, ih (fun z hz => hl z (List.mem_cons_of_mem _ hz)) hys⟩
      intro z hz
      have hz2 := (insertCmp_perm cmp x ys).mem_iff.mp hz
      rcases List.mem_cons.mp hz2 with heq | hz'
      · rw [heq]
        rcases htot x y hx (hl y (List.mem_cons_self y ys)) with h | h
        · exact absurd h hc
        · exact h
      · exact hy z hz'

/-- The sort model produces a pairwise-ordered list when the comparator is
total and transitive on the list's elements. -/
theorem jsSortBy_pairwise {α : Type} (cmp : α → α → Int) (P : α → Prop) (l : List α)
    (htot : ∀ a b, P a → P b → cmp a b ≤ 0 ∨ cmp b a ≤ 0)
    (htr : ∀ a b c, P a → P b → P c → cmp a b ≤ 0 → cmp b c ≤ 0 → cmp a c ≤ 0)
    (hl : ∀ y ∈ l, P y) :
    (jsSortBy cmp l).Pairwise (fun a b => cmp a b ≤ 0) := by
  induction l with
  | nil => simp [jsSortBy]
  | cons x xs ih =>
    simp only [jsSortBy, List.foldr_cons] at ih ⊢
    refine insertCmp_pairwise cmp P x _ htot htr (hl x (List.mem_cons_self x xs)) ?_ ?_
    · intro y hy
      exact hl y (List.mem_cons_of_mem _ ((jsSortBy_perm cmp xs).mem_iff.mp hy))
    · exact ih (fun y hy => hl y (List.mem_cons_of_mem _ hy))

/-- On the two financial kinds the day-detail comparator is total. -/
theorem dayCmp_total (a b : Transaction) (ha : isFinKind a) (hb : isFinKind b) :
    dayCmp a b ≤ 0 ∨ dayCmp b a ≤ 0 := by
  unfold dayCmp
  rcases ha with ha | ha <;> rcases hb with hb | hb <;> simp [ha, hb] <;> omega

/-- On the two financial kinds the day-detail comparator is transitive. -/
theorem dayCmp_trans (a b c : Transaction) (ha : isFinKind a) (hb : isFinKind b)
    (hc : isFinKind c) (h1 : dayCmp a b ≤ 0) (h2 : dayCmp b c ≤ 0) :
    dayCmp a c ≤ 0 := by
  unfold dayCmp at h1 h2 ⊢
  rcases ha with ha | ha <;> rcases hb with hb | hb <;> rcases hc with hc | hc <;>
    simp [ha, hb, hc] at h1 h2 ⊢ <;> omega

/-- C9.  For every exact date string, the day-detail list is exactly the
records with that date (a permutation of the date filter, with membership
characterized), ordered with no expense-kind record before an income-kind
record and amounts descending within a kind — provided the records are of
the two financial kinds: for any third type string the source comparator is
inconsistent and the ECMAScript sort order is implementation-defined. -/
theorem openDayDetail_sorted (ts : List Transaction) (dateStr : String)
    (h : ∀ t ∈ ts, t.type = some ("収入") ∨ t.type = some ("支出")) :
    (openDayDetail ts dateStr).Perm (ts.filter (fun t => t.date == dateStr)) ∧
    (openDayDetail ts dateStr).Pairwise (fun a b =>
      ¬(a.type = some ("支出") ∧ b.type = some ("収入")) ∧
      (a.type = b.type → b.amount ≤ a.amount)) ∧
    ∀ t : Transaction, t ∈ openDayDetail ts dateStr ↔ t ∈ ts ∧ t.date = dateStr := by
  have hperm : (openDayDetail ts dateStr).Perm (ts.filter (fun t => t.date == dateStr)) :=
    jsSortBy_perm dayCmp (ts.filter (fun t => t.date == dateStr))
  refine ⟨hperm, ?_, ?_⟩
  · have hpw := jsSortBy_pairwise dayCmp isFinKind (ts.filter (fun t => t.date == dateStr))
      dayCmp_total dayCmp_trans (fun y hy => h y (List.mem_filter.mp hy).1)
    refine hpw.imp ?_
    intro a b hab
    constructor
    · rintro ⟨ha, hb⟩
      rw [dayCmp] at hab
      simp [ha, hb] at hab
    · intro hty
      rw [dayCmp, if_neg (by simp [hty])] at hab
      omega
  · intro t
    rw [hperm.mem_iff, List.mem_filter]
    simp

/-! ### Concrete sample records and remaining witness instantiations -/

/-- A sample income record (as the import pipeline would produce it). -/
def sampleIncome : Transaction :=
  { id := "i1", date := "2025-03-15", year := some 2025, month := some 3,
    day := some 15, type := some ("収入"), category_med := some ("給与"),
    category_sml := some (""), detail := some (""), amount := 300000,
    value_type := some (""), payee := some (""), method := some ("Bank") }

/-- A sample expense record. -/
def sampleExpense : Transaction :=
  { id := "e1", date := "2025-03-15", year := some 2025, month := some 3,
    day := some 15, type := some ("支出"), category_med := some ("食費"),
    category_sml := some (""), detail := some ("Lunch"), amount := 1200,
    value_type := some (""), payee := some ("ShopA"), method := some ("Cash") }

/-- C5 witness instantiation: the tokenizer theorem at the spec's example
line recovers the three fields with the quoted comma preserved. -/
theorem splitCSVLine_quoted_comma_witness :
    splitCSVLine ("a,\"b,c\",d") = ["a", "b,c", "d"] := by
  exact splitCSVLine_quoted_comma ("a") ("b,c") ("d") (by decide) (by decide) (by decide)

/-- C3 witness instantiation: a quoted comma-grouped amount field is
non-minus-leading after cleaning, and parses non-negatively. -/
theorem parseAmount_amended_witness :
    ((cleanAmount ("1,200")).data.dropWhile jsWhitespace).head? ≠ some minusChar ∧
    0 ≤ parseAmount (some ("1,200")) := by
  exact ⟨by decide, (parseAmount_amended ("1,200")).2.2 (by decide)⟩

/-- C6 witness instantiation: on a concrete all-non-negative store the
month totals are non-negative. -/
theorem month_totals_invariant_witness :
    0 ≤ monthIncome [sampleIncome, sampleExpense] ("2025-03") ∧
    0 ≤ monthExpense [sampleIncome, sampleExpense] ("2025-03") := by
  exact (month_totals_invariant [sampleIncome, sampleExpense] ("2025-03")).2 (by decide)

/-- C8 witness instantiation: deleting a present id from a concrete
two-record store shrinks it by one, and deleting an absent id is the
identity. -/
theorem deleteTransaction_removeById_witness :
    (deleteTransaction [sampleIncome, sampleExpense] ("i1")).length + 1 =
      ([sampleIncome, sampleExpense] : List Transaction).length ∧
    deleteTransaction [sampleIncome, sampleExpense] ("zz") =
      [sampleIncome, sampleExpense] := by
  constructor
  · exact ((deleteTransaction_removeById [sampleIncome, sampleExpense] ("i1")
      (by decide)).1 (by decide)).1
  · exact (deleteTransaction_removeById [sampleIncome, sampleExpense] ("zz")
      (by decide)).2 (by decide)

/-- C9 witness instantiation: the day-detail list of a concrete two-kind
store is a permutation of the date filter and pairwise ordered. -/
theorem openDayDetail_sorted_witness :
    (openDayDetail [sampleExpense, sampleIncome] ("2025-03-15")).Perm
      (([sampleExpense, sampleIncome] : List Transaction).filter
        (fun t => t.date == "2025-03-15")) ∧
    (openDayDetail [sampleExpense, sampleIncome] ("2025-03-15")).Pairwise (fun a b =>
      ¬(a.type = some ("支出") ∧ b.type = some ("収入")) ∧
      (a.type = b.type → b.amount ≤ a.amount)) := by
  exact ⟨(openDayDetail_sorted [sampleExpense, sampleIncome] ("2025-03-15") (by decide)).1,
    (openDayDetail_sorted [sampleExpense, sampleIncome] ("2025-03-15") (by decide)).2.1⟩

/-- C7 witness instantiation: a concrete store with an ordinary category
satisfies the no-prototype-key proviso, and its category totals sum to the
month expense. -/
theorem categoryTotals_sum_witness :
    sumValues (categoryTotals (monthData [sampleExpense, sampleIncome] ("2025-03"))) =
      monthExpense [sampleExpense, sampleIncome] ("2025-03") := by
  exact (categoryTotals_sum_eq_monthExpense [sampleExpense, sampleIncome] ("2025-03")
    (by decide)).2
